import Mathlib

/-!
Verification development for the RTB auction intermediary.

Shallow embedding of the Go sources:
* `src/partners/metrics.go` — `MatchTargeting`, `ShortlistDSPs`
* `src/partners/manager.go` — partner registry (`Load`, `GetConfig`,
  `GetSSPByInventoryCode`, `GetDSPsByTenant`)
* `src/unnamed/part_000` — the auction orchestrator `AuctionHandler.Handle`
* `src/logging/bid_logger.go` — the asynchronous bid event logger

Go machine integers are modelled as `Int`, Go strings as Lean `String`
(byte strings of the event logger wire format as `List (Fin 256)`),
Go float64 bid prices as `ℚ` (only comparisons are performed on them),
and fallible operations return `Option`/`Except`.  The nondeterministic
arrival order of DSP responses on the collection channel is modelled by
an explicit arrival list consumed in order, exactly as the collection
loop of `Handle` consumes the channel.
-/

/-- A byte, as written to the bid log file. -/
abbrev Byte := Fin 256

/-! ## OpenRTB data model (the fields the embedded code reads) -/

/-- OpenRTB `Geo` object: targeting only reads `Country`. -/
structure GeoObj where
  Country : String
deriving DecidableEq, Repr

/-- OpenRTB `Device` object: targeting only reads `Geo`. -/
structure DeviceObj where
  Geo : Option GeoObj
deriving DecidableEq, Repr

/-- OpenRTB `App` object fields read by the handler and targeting. -/
structure AppObj where
  ID : String
  Name : String
  Bundle : String
  Domain : String
deriving DecidableEq, Repr

/-- OpenRTB `Site` object fields read by the handler. -/
structure SiteObj where
  Domain : String
  Page : String
deriving DecidableEq, Repr

/-- OpenRTB `Imp` object: the presence of the format sub-objects and the floor. -/
structure ImpObj where
  Banner : Option Unit
  Video : Option Unit
  Audio : Option Unit
  Native : Option Unit
  BidFloor : ℚ
deriving DecidableEq, Repr

/-- OpenRTB `BidRequest` fields read by the embedded code. -/
structure BidRequest where
  ID : String
  TMax : Int
  App : Option AppObj
  Site : Option SiteObj
  Device : Option DeviceObj
  Imp : List ImpObj
deriving DecidableEq, Repr

/-- OpenRTB `Bid`: winner selection only reads `Price`. -/
structure BidObj where
  Price : ℚ
deriving DecidableEq, Repr

/-- OpenRTB `SeatBid`. -/
structure SeatBidObj where
  Bid : List BidObj
deriving DecidableEq, Repr

/-- OpenRTB `BidResponse`. -/
structure BidResponse where
  SeatBid : List SeatBidObj
deriving DecidableEq, Repr

/-! ## Partner records (src/partners/manager.go) -/

/-- `partners.SSPInventory` (src/partners/manager.go). -/
structure SSPInventory where
  Name : String
  ID : Int
  InventoryName : String
  Status : String
  InventoryCode : String
  TenantIdentifier : String
  SSPIdentifier : String
  TenantID : Int
  SSPID : Int
  SSPInventoryID : Int
  PrometheusID : String
  PrometheusIdentifier : String
  AdFormats : List String
deriving DecidableEq, Repr

/-- `partners.DSPInventory` (src/partners/manager.go). -/
structure DSPInventory where
  Name : String
  DSPIdentifier : String
  EndpointName : String
  EndpointURL : String
  QPS : Int
  Tmax : Int
  ID : Int
  InventoryCode : String
  Status : String
  MinBidFloor : String
  MaxBidFloor : String
  AdFormats : List String
  Source : List String
  Country : List String
  CountryBlackList : List String
  IABCategories : List String
  BundleIDs : List String
  BundleIDsBlackList : List String
  SSPs : List String
  SSPsBlackList : List String
  Publishers : List String
  PublishersBlackList : List String
  TenantIdentifier : String
  TenantID : Int
  DSPID : Int
  DSPInventoryID : Int
  PrometheusID : String
  PrometheusIdentifier : String
deriving DecidableEq, Repr

/-- `partners.PartnersConfig` (src/partners/manager.go). -/
structure PartnersConfig where
  SSPInventories : List SSPInventory
  DSPInventories : List DSPInventory
  AdServing : Bool
  TS : String
deriving DecidableEq, Repr

/-! ## Targeting filter (src/partners/metrics.go, MatchTargeting) -/

/-- Model of `strings.ToUpper` (Go standard library): character-wise upper
casing of the string's characters. -/
def goToUpper (s : String) : String := ⟨s.data.map Char.toUpper⟩

/-- Model of `strings.ToLower` (Go standard library): character-wise lower
casing of the string's characters. -/
def goToLower (s : String) : String := ⟨s.data.map Char.toLower⟩

/-- Step 1 of `MatchTargeting`: the source (app vs web) check.
`return false` is taken when no source entry matched and the list is non-empty. -/
def sourceRule (req : BidRequest) (dsp : DSPInventory) : Bool :=
  let isApp := req.App.isSome
  let sourceMatch := dsp.Source.any fun s =>
    (isApp && goToLower s == "app") || (!isApp && goToLower s == "web")
  !(!sourceMatch && !dsp.Source.isEmpty)

/-- The uppercased request country used by step 2 of `MatchTargeting`;
empty when `Device` or `Device.Geo` is absent. -/
def requestCountry (req : BidRequest) : String :=
  match req.Device with
  | none => ""
  | some d =>
    match d.Geo with
    | none => ""
    | some g => goToUpper g.Country

/-- Step 2 of `MatchTargeting`: country blacklist then whitelist
(with the uppercased "ANY" sentinel) on the uppercased request country. -/
def countryRule (req : BidRequest) (dsp : DSPInventory) : Bool :=
  let country := requestCountry req
  if country == "" then true
  else if dsp.CountryBlackList.any (fun bc => goToUpper bc == country) then false
  else if !dsp.Country.isEmpty then
    dsp.Country.any fun wc => goToUpper wc == country || goToUpper wc == "ANY"
  else true

/-- Step 3 of `MatchTargeting`: bundle blacklist/whitelist, app requests only,
case-sensitive. -/
def bundleRule (req : BidRequest) (dsp : DSPInventory) : Bool :=
  match req.App with
  | none => true
  | some app =>
    if app.Bundle == "" then true
    else if dsp.BundleIDsBlackList.any (fun bb => bb == app.Bundle) then false
    else if !dsp.BundleIDs.isEmpty then dsp.BundleIDs.any (fun wb => wb == app.Bundle)
    else true

/-- One impression against one DSP ad-format entry (step 4 of `MatchTargeting`). -/
def impFormatMatch (imp : ImpObj) (df : String) : Bool :=
  let dfLower := goToLower df
  (imp.Banner.isSome && dfLower == "banner") ||
  (imp.Video.isSome && dfLower == "video") ||
  (imp.Audio.isSome && dfLower == "audio") ||
  (imp.Native.isSome && dfLower == "native")

/-- Step 4 of `MatchTargeting`: some impression carries a sub-object whose kind
matches some entry of a non-empty DSP format list. -/
def formatRule (req : BidRequest) (dsp : DSPInventory) : Bool :=
  if dsp.AdFormats.isEmpty then true
  else req.Imp.any fun imp => dsp.AdFormats.any fun df => impFormatMatch imp df

/-- `partners.MatchTargeting` (src/partners/metrics.go).  Steps 5 (IAB
categories) and 6 (bid floor) of the source inspect their fields but contain
no `return` statement, so they never reject; the function is the conjunction
of the four rejecting rules, each of which mirrors one source block. -/
def MatchTargeting (req : BidRequest) (dsp : DSPInventory) : Bool :=
  sourceRule req dsp && countryRule req dsp && bundleRule req dsp && formatRule req dsp

/-- The loop body of `partners.ShortlistDSPs`: append on match, then break once
the accumulated length has reached the limit.  `limit` is a Go `int`. -/
def shortlistLoop (req : BidRequest) (limit : Int) :
    List DSPInventory → List DSPInventory → List DSPInventory
  | [], acc => acc
  | dsp :: rest, acc =>
    if MatchTargeting req dsp then
      let acc2 := acc ++ [dsp]
      if limit ≤ (acc2.length : Int) then acc2 else shortlistLoop req limit rest acc2
    else shortlistLoop req limit rest acc

/-- `partners.ShortlistDSPs` (src/partners/metrics.go). -/
def ShortlistDSPs (req : BidRequest) (candidates : List DSPInventory) (limit : Int) :
    List DSPInventory :=
  shortlistLoop req limit candidates []

/-! ## Concrete fixtures used by counterexamples and witnesses -/

/-- A DSP inventory record with all targeting lists empty: `MatchTargeting`
accepts it against any request. -/
def openDSP : DSPInventory where
  Name := "dsp"
  DSPIdentifier := "dsp-1"
  EndpointName := "ep"
  EndpointURL := "http://dsp.example/bid"
  QPS := 100
  Tmax := 200
  ID := 1
  InventoryCode := "dsp-inv"
  Status := "Active"
  MinBidFloor := ""
  MaxBidFloor := ""
  AdFormats := []
  Source := []
  Country := []
  CountryBlackList := []
  IABCategories := []
  BundleIDs := []
  BundleIDsBlackList := []
  SSPs := []
  SSPsBlackList := []
  Publishers := []
  PublishersBlackList := []
  TenantIdentifier := "t1"
  TenantID := 1
  DSPID := 7
  DSPInventoryID := 8
  PrometheusID := "p"
  PrometheusIdentifier := "dsp-prom"

/-- A bid request with no targeting-relevant content. -/
def plainRequest : BidRequest where
  ID := "req-1"
  TMax := 300
  App := none
  Site := none
  Device := none
  Imp := []

/-! ## Partner registry (src/partners/manager.go) -/

/-- The manager state: the atomically published config snapshot
(`none` until the first successful `Load`). -/
def GetConfig (st : Option PartnersConfig) : Option PartnersConfig := st

/-- `Manager.Load` (src/partners/manager.go).  `readResult` models
`os.ReadFile` (`none` = read error) and `dec` models `json.Unmarshal`
(`none` = decode error); both are external library calls.  The snapshot is
stored only after both succeed; on either failure the function returns the
wrapped error message and leaves the state untouched. -/
def Load (readResult : Option String) (dec : String → Option PartnersConfig)
    (st : Option PartnersConfig) : Option PartnersConfig × Option String :=
  match readResult with
  | none => (st, some "failed to read partners file")
  | some data =>
    match dec data with
    | none => (st, some "failed to unmarshal partners config")
    | some cfg => (some cfg, none)

/-- The scan loop of `Manager.GetSSPByInventoryCode`: first exact match on
`InventoryCode` wins. -/
def sspFindLoop (code : String) : List SSPInventory → Option SSPInventory
  | [] => none
  | s :: rest => if s.InventoryCode == code then some s else sspFindLoop code rest

/-- `Manager.GetSSPByInventoryCode` (src/partners/manager.go). -/
def GetSSPByInventoryCode (st : Option PartnersConfig) (code : String) :
    Option SSPInventory :=
  match st with
  | none => none
  | some cfg => sspFindLoop code cfg.SSPInventories

/-- The accumulating loop of `Manager.GetDSPsByTenant`. -/
def dspsByTenantLoop (tenantID : Int) :
    List DSPInventory → List DSPInventory → List DSPInventory
  | [], acc => acc
  | d :: rest, acc =>
    if d.TenantID == tenantID && d.Status == "Active" then
      dspsByTenantLoop tenantID rest (acc ++ [d])
    else dspsByTenantLoop tenantID rest acc

/-- `Manager.GetDSPsByTenant` (src/partners/manager.go): `nil` config yields
the empty (nil) slice. -/
def GetDSPsByTenant (st : Option PartnersConfig) (tenantID : Int) : List DSPInventory :=
  match st with
  | none => []
  | some cfg => dspsByTenantLoop tenantID cfg.DSPInventories []

/-! ## Winner selection (src/unnamed/part_000, AuctionHandler.Handle step 8) -/

/-- One element received on the collection channel: the `bidResult` pair. -/
abbrev Arrival := BidResponse × DSPInventory

/-- All bid prices of one received response, in the source traversal order
(`SeatBid` outer loop, `Bid` inner loop). -/
def arrivalPrices (a : Arrival) : List ℚ :=
  (a.1.SeatBid.flatMap fun sb => sb.Bid).map fun b => b.Price

/-- All bid prices of the received responses, in channel-consumption order. -/
def allPrices (l : List Arrival) : List ℚ := l.flatMap arrivalPrices

/-- The inner double loop of the collection phase: fold one received
`bidResult` into the running `(bestResult, maxPrice)` state; a bid updates the
state exactly when its price strictly exceeds the running maximum. -/
def bidsFold (st : Option Arrival × ℚ) (res : Arrival) : Option Arrival × ℚ :=
  res.1.SeatBid.foldl
    (fun st1 sb =>
      sb.Bid.foldl
        (fun st2 bid => if st2.2 < bid.Price then (some res, bid.Price) else st2)
        st1)
    st

/-- The collection loop of `Handle`: consume the arrivals in order starting
from `(nil, 0)`, exactly as the source ranges over `bidChan`. -/
def selectBest (arrivals : List Arrival) : Option Arrival × ℚ :=
  arrivals.foldl bidsFold (none, (0 : ℚ))

/-- Spec-side winner, written from the spec sentence for the refinement
comparison of C1: the first received (response, dsp) pair whose response
contains a bid of price at least every received bid price. -/
def specWinner (l : List Arrival) : Option Arrival :=
  l.find? fun a =>
    (arrivalPrices a).any fun p => (allPrices l).all fun q => decide (q ≤ p)

/-! ## The auction orchestrator (src/unnamed/part_000, AuctionHandler.Handle) -/

/-- HTTP status written by `Handle`. -/
inductive HStatus where
  | ok200
  | noContent204
  | unauthorized401
  | badRequest400
deriving DecidableEq, Repr

/-- Input of one `Handle` invocation.  `cfg` is the manager snapshot,
`accountCode` the query parameter (empty = absent), `parsedBody` the result of
reading and JSON-decoding the body (`none` = read or decode error), and
`arrivals` the `bidResult` pairs received on the collection channel before it
closes, in arrival order (the channel order abstracts the concurrent fan-out). -/
structure HandleInput where
  cfg : Option PartnersConfig
  accountCode : String
  parsedBody : Option BidRequest
  arrivals : List Arrival
deriving Repr

/-- Observable outcome of one `Handle` invocation: the HTTP status, the
counter increments in program order (auction counter statuses; SSP request
counter label triples; SSP response counter label-and-status quadruples), the
DSPs fanned out to, and the winning pair. -/
structure HandleOutput where
  status : HStatus
  auctionCounts : List String
  sspRequestCounts : List (String × String × String)
  sspResponseCounts : List (String × String × String × String)
  dspCalls : List DSPInventory
  winner : Option Arrival
deriving DecidableEq, Repr

/-- `AuctionHandler.Handle` (src/unnamed/part_000): ad-serving gate,
account-code authentication, body parse, TMax validation, shortlisting with
`N = 5`, fan-out, winner selection over the received arrivals, response. -/
def Handle (inp : HandleInput) : HandleOutput :=
  match inp.cfg with
  | none =>
    { status := HStatus.noContent204
      auctionCounts := ["rejected_adserving_disabled"]
      sspRequestCounts := []
      sspResponseCounts := []
      dspCalls := []
      winner := none }
  | some cfg =>
    if !cfg.AdServing then
      { status := HStatus.noContent204
        auctionCounts := ["rejected_adserving_disabled"]
        sspRequestCounts := []
        sspResponseCounts := []
        dspCalls := []
        winner := none }
    else if inp.accountCode == "" then
      { status := HStatus.unauthorized401
        auctionCounts := []
        sspRequestCounts := []
        sspResponseCounts := []
        dspCalls := []
        winner := none }
    else
      match GetSSPByInventoryCode (some cfg) inp.accountCode with
      | none =>
        { status := HStatus.unauthorized401
          auctionCounts := []
          sspRequestCounts := []
          sspResponseCounts := []
          dspCalls := []
          winner := none }
      | some ssp =>
        let reqCnt := [(ssp.PrometheusIdentifier, ssp.TenantIdentifier, ssp.SSPIdentifier)]
        match inp.parsedBody with
        | none =>
          { status := HStatus.badRequest400
            auctionCounts := []
            sspRequestCounts := reqCnt
            sspResponseCounts := []
            dspCalls := []
            winner := none }
        | some bidReq =>
          if bidReq.TMax ≤ 120 then
            { status := HStatus.noContent204
              auctionCounts := ["rejected_tmax"]
              sspRequestCounts := reqCnt
              sspResponseCounts :=
                [(ssp.PrometheusIdentifier, ssp.TenantIdentifier, ssp.SSPIdentifier, "error")]
              dspCalls := []
              winner := none }
          else
            let candidates := GetDSPsByTenant (some cfg) ssp.TenantID
            let selected := ShortlistDSPs bidReq candidates 5
            if selected.isEmpty then
              { status := HStatus.noContent204
                auctionCounts := []
                sspRequestCounts := reqCnt
                sspResponseCounts :=
                  [(ssp.PrometheusIdentifier, ssp.TenantIdentifier, ssp.SSPIdentifier, "no_bid")]
                dspCalls := []
                winner := none }
            else
              match (selectBest inp.arrivals).1 with
              | none =>
                { status := HStatus.noContent204
                  auctionCounts := []
                  sspRequestCounts := reqCnt
                  sspResponseCounts :=
                    [(ssp.PrometheusIdentifier, ssp.TenantIdentifier, ssp.SSPIdentifier, "no_bid")]
                  dspCalls := selected
                  winner := none }
              | some best =>
                { status := HStatus.ok200
                  auctionCounts := ["ok"]
                  sspRequestCounts := reqCnt
                  sspResponseCounts :=
                    [(ssp.PrometheusIdentifier, ssp.TenantIdentifier, ssp.SSPIdentifier, "ok")]
                  dspCalls := selected
                  winner := some best }

/-! ## Auction event and its wire encoding (src/logging/bid_logger.go)

`BidLogger.writeEvent` serializes the event with `proto.Marshal`, hex-encodes
the bytes and writes one `<hex>\n` line.  The generated schema package
(`proto/generated`) is code of this repository that is not under src/, so the
binary encoding is modelled from the spec.  Go strings are byte strings on
this wire, so the event's textual fields are modelled as `List Byte`. -/

/-- App source variant of the auction event (spec §3). -/
structure EventApp where
  Id : List Byte
  Name : List Byte
  Bundle : List Byte
  Domain : List Byte
deriving DecidableEq, Repr

/-- Web source variant of the auction event (spec §3). -/
structure EventWeb where
  Domain : List Byte
  Page : List Byte
deriving DecidableEq, Repr

/-- Source discriminator of the auction event: App or Web. -/
inductive EventSource where
  | app (a : EventApp)
  | web (w : EventWeb)
deriving DecidableEq, Repr

/-- `generated.AuctionEvent` as described by spec §3: identity ids, auction id,
winning price, request floor, raw bodies, source discriminator, and the
hostname / millisecond timestamp stamped by `Log`. -/
structure AuctionEvent where
  TenantId : Nat
  SspPartnerId : Nat
  SspInventoryId : Nat
  SspPartnerAuctionId : List Byte
  DspPartnerId : Nat
  DspInventoryId : Nat
  DspPrice : ℚ
  BidRequestPrice : ℚ
  RawBidRequest : List Byte
  RawDspResponse : List Byte
  SourceField : Option EventSource
  Hostname : List Byte
  Timestamp : Int
deriving DecidableEq, Repr

/-- Base-128 varint encoding of a natural number, least significant group
first, continuation bit set on all but the last byte. -/
def encodeVarint (n : Nat) : List Byte :=
  if h : n < 128 then [⟨n, by omega⟩]
  else ⟨128 + n % 128, by omega⟩ :: encodeVarint (n / 128)
termination_by n
decreasing_by exact Nat.div_lt_self (by omega) (by omega)

/-- Varint decoder; returns the value and the unconsumed suffix. -/
def decodeVarint : List Byte → Option (Nat × List Byte)
  | [] => none
  | b :: rest =>
    if b.val < 128 then some (b.val, rest)
    else
      match decodeVarint rest with
      | none => none
      | some (n, r) => some (n * 128 + (b.val - 128), r)

/-- Length-delimited byte-string encoding: varint length, then the bytes. -/
def encodeBytesD (bs : List Byte) : List Byte := encodeVarint bs.length ++ bs

/-- Length-delimited byte-string decoder. -/
def decodeBytesD (l : List Byte) : Option (List Byte × List Byte) :=
  match decodeVarint l with
  | none => none
  | some (len, r) => if len ≤ r.length then some (r.take len, r.drop len) else none

/-- Integer encoding: one sign byte (1 = negative) then the varint magnitude. -/
def encodeIntD (i : Int) : List Byte :=
  (if i < 0 then (⟨1, by omega⟩ : Byte) else (⟨0, by omega⟩ : Byte)) :: encodeVarint i.natAbs

/-- Integer decoder matching `encodeIntD`. -/
def decodeIntD (l : List Byte) : Option (Int × List Byte) :=
  match l with
  | [] => none
  | b :: r =>
    match decodeVarint r with
    | none => none
    | some (n, r2) =>
      if b.val = 1 then some (-(n : Int), r2)
      else if b.val = 0 then some ((n : Int), r2)
      else none

/-- Rational (price) encoding: numerator as integer, denominator as varint. -/
def encodeRatD (q : ℚ) : List Byte := encodeIntD q.num ++ encodeVarint q.den

/-- Rational decoder matching `encodeRatD`. -/
def decodeRatD (l : List Byte) : Option (ℚ × List Byte) :=
  match decodeIntD l with
  | none => none
  | some (num, r) =>
    match decodeVarint r with
    | none => none
    | some (den, r2) => some (mkRat num den, r2)

/-- Source-discriminator encoding: tag byte 0 (absent), 1 (App) or 2 (Web),
then the variant's length-delimited fields. -/
def encodeSourceD : Option EventSource → List Byte
  | none => [⟨0, by omega⟩]
  | some (EventSource.app a) =>
    (⟨1, by omega⟩ : Byte) ::
      (encodeBytesD a.Id ++ encodeBytesD a.Name ++ encodeBytesD a.Bundle ++
        encodeBytesD a.Domain)
  | some (EventSource.web w) =>
    (⟨2, by omega⟩ : Byte) :: (encodeBytesD w.Domain ++ encodeBytesD w.Page)

/-- Source-discriminator decoder matching `encodeSourceD`. -/
def decodeSourceD (l : List Byte) : Option (Option EventSource × List Byte) :=
  match l with
  | [] => none
  | t :: r =>
    if t.val = 0 then some (none, r)
    else if t.val = 1 then
      match decodeBytesD r with
      | none => none
      | some (i, r1) =>
        match decodeBytesD r1 with
        | none => none
        | some (nm, r2) =>
          match decodeBytesD r2 with
          | none => none
          | some (bu, r3) =>
            match decodeBytesD r3 with
            | none => none
            | some (dm, r4) => some (some (EventSource.app ⟨i, nm, bu, dm⟩), r4)
    else if t.val = 2 then
      match decodeBytesD r with
      | none => none
      | some (dm, r1) =>
        match decodeBytesD r1 with
        | none => none
        | some (pg, r2) => some (some (EventSource.web ⟨dm, pg⟩), r2)
    else none

/-- Modelled from the spec: the binary serialization of `generated.AuctionEvent`
performed by `proto.Marshal` in `writeEvent` (the generated schema code is not
under src/).  Spec §3: "Encoded as a length-delimited binary structured record";
the fields are emitted in declaration order, each length- or varint-delimited. -/
def marshalEvent (e : AuctionEvent) : List Byte :=
  encodeVarint e.TenantId ++ encodeVarint e.SspPartnerId ++
  encodeVarint e.SspInventoryId ++ encodeBytesD e.SspPartnerAuctionId ++
  encodeVarint e.DspPartnerId ++ encodeVarint e.DspInventoryId ++
  encodeRatD e.DspPrice ++ encodeRatD e.BidRequestPrice ++
  encodeBytesD e.RawBidRequest ++ encodeBytesD e.RawDspResponse ++
  encodeSourceD e.SourceField ++ encodeBytesD e.Hostname ++ encodeIntD e.Timestamp

/-- Modelled from the spec: deserialization inverse to `marshalEvent`
(`proto.Unmarshal` of the generated schema); fails unless the whole input is
consumed. -/
def unmarshalEvent (l : List Byte) : Option AuctionEvent :=
  match decodeVarint l with
  | none => none
  | some (tid, l1) =>
  match decodeVarint l1 with
  | none => none
  | some (spid, l2) =>
  match decodeVarint l2 with
  | none => none
  | some (sinvid, l3) =>
  match decodeBytesD l3 with
  | none => none
  | some (aid, l4) =>
  match decodeVarint l4 with
  | none => none
  | some (dpid, l5) =>
  match decodeVarint l5 with
  | none => none
  | some (dinvid, l6) =>
  match decodeRatD l6 with
  | none => none
  | some (price, l7) =>
  match decodeRatD l7 with
  | none => none
  | some (floor, l8) =>
  match decodeBytesD l8 with
  | none => none
  | some (rawReq, l9) =>
  match decodeBytesD l9 with
  | none => none
  | some (rawResp, l10) =>
  match decodeSourceD l10 with
  | none => none
  | some (src, l11) =>
  match decodeBytesD l11 with
  | none => none
  | some (hn, l12) =>
  match decodeIntD l12 with
  | none => none
  | some (ts, l13) =>
  if l13.isEmpty then
    some ⟨tid, spid, sinvid, aid, dpid, dinvid, price, floor, rawReq, rawResp, src, hn, ts⟩
  else none

/-! ## Hex encoding of the log line (encoding/hex in writeEvent) -/

/-- The lowercase hex alphabet used by `hex.EncodeToString`. -/
def hexAlphabet : List Char := "0123456789abcdef".data

/-- One hex digit. -/
def hexDigitChar (n : Fin 16) : Char := hexAlphabet.getD n.val ' '

/-- Hex encoding of one byte: high nibble then low nibble. -/
def hexEncodeByte (b : Byte) : List Char :=
  [hexDigitChar ⟨b.val / 16, by omega⟩, hexDigitChar ⟨b.val % 16, by omega⟩]

/-- `hex.EncodeToString`: two lowercase hex digits per byte. -/
def hexEncodeChars (bs : List Byte) : List Char := bs.flatMap hexEncodeByte

/-- Value of one hex digit character. -/
def hexVal (c : Char) : Option (Fin 16) :=
  match hexAlphabet.indexOf? c with
  | none => none
  | some i => if h : i < 16 then some ⟨i, h⟩ else none

/-- Hex decoder: consume digit pairs. -/
def hexDecodeChars : List Char → Option (List Byte)
  | [] => some []
  | [_] => none
  | c1 :: c2 :: rest => do
    let hi ← hexVal c1
    let lo ← hexVal c2
    let bs ← hexDecodeChars rest
    some (⟨hi.val * 16 + lo.val, by omega⟩ :: bs)

/-- The single line `BidLogger.writeEvent` writes for one event:
the hex encoding of the binary serialization followed by a newline. -/
def writeEventLine (e : AuctionEvent) : List Char :=
  hexEncodeChars (marshalEvent e) ++ ['\n']

/-! ## BidLogger state machine (src/logging/bid_logger.go) -/

/-- A Go channel: buffered contents plus the closed flag. -/
structure GoChan (α : Type) where
  buf : List α
  closed : Bool
deriving DecidableEq, Repr

/-- Go run-time panics the logger model can raise. -/
inductive GoPanic where
  | closeOfClosedChannel
deriving DecidableEq, Repr

/-- Go `close(ch)`: panics ("close of closed channel") when the channel is
already closed, otherwise marks it closed. -/
def chanClose {α : Type} (c : GoChan α) : Except GoPanic (GoChan α) :=
  if c.closed then Except.error GoPanic.closeOfClosedChannel
  else Except.ok { c with closed := true }

/-- `BidLogger` state: the event channel, the file-writer open flag, and the
hostname captured at init. -/
structure BidLoggerM where
  logChan : GoChan AuctionEvent
  writerOpen : Bool
  hostname : List Byte
deriving DecidableEq, Repr

/-- `BidLogger.Log` stamping (src/logging/bid_logger.go): hostname from the
logger, timestamp from the wall clock, set on the event before enqueueing. -/
def stampEvent (hostname : List Byte) (now : Int) (e : AuctionEvent) : AuctionEvent :=
  { e with Hostname := hostname, Timestamp := now }

/-- `BidLogger.Close` (src/logging/bid_logger.go): `close(l.logChan)` followed
by closing the file writer.  The channel close panics when already closed. -/
def CloseLogger (l : BidLoggerM) : Except GoPanic BidLoggerM :=
  match chanClose l.logChan with
  | Except.error p => Except.error p
  | Except.ok ch => Except.ok { l with logChan := ch, writerOpen := false }

/-- A freshly initialized bid logger. -/
def freshLogger : BidLoggerM where
  logChan := { buf := [], closed := false }
  writerOpen := true
  hostname := [104, 111, 115, 116]

/-- The logger state after the first successful `Close` of `freshLogger`. -/
def closedLogger : BidLoggerM where
  logChan := { buf := [], closed := true }
  writerOpen := false
  hostname := [104, 111, 115, 116]

/-! ## Proof-support definitions -/

/-- The running-maximum update of the collection loop, extracted: the state is
replaced exactly when the price strictly exceeds it. -/
def runMax (z : ℚ) (ps : List ℚ) : ℚ :=
  ps.foldl (fun m p => if m < p then p else m) z

/-- One price step of the collection loop for a fixed received pair. -/
def priceStep (res : Arrival) (st : Option Arrival × ℚ) (p : ℚ) : Option Arrival × ℚ :=
  if st.2 < p then (some res, p) else st

/-- Does some price in the list strictly exceed `z`? -/
def anyAbove (z : ℚ) (ps : List ℚ) : Bool := ps.any fun p => decide (z < p)

/-! ## Concrete fixtures for witnesses -/

/-- A response holding a single bid of the given price. -/
def oneBidResponse (p : ℚ) : BidResponse where
  SeatBid := [{ Bid := [{ Price := p }] }]

/-- An SSP inventory record fixture; `Status` is a parameter so the same
fixture serves the active and inactive scenarios. -/
def sspFixture (status : String) : SSPInventory where
  Name := "ssp"
  ID := 2
  InventoryName := "inv"
  Status := status
  InventoryCode := "acct-1"
  TenantIdentifier := "t1"
  SSPIdentifier := "ssp-1"
  TenantID := 1
  SSPID := 3
  SSPInventoryID := 4
  PrometheusID := "pid"
  PrometheusIdentifier := "ssp-prom"
  AdFormats := []

/-- A partners config with one SSP record of the given status and one open
active DSP in the same tenant. -/
def cfgFixture (status : String) : PartnersConfig where
  SSPInventories := [sspFixture status]
  DSPInventories := [openDSP]
  AdServing := true
  TS := "ts"

/-- Handler input fixture: authenticated request against `cfgFixture`, with
the supplied TMax and arrivals. -/
def inputFixture (status : String) (tmax : Int) (arr : List Arrival) : HandleInput where
  cfg := some (cfgFixture status)
  accountCode := "acct-1"
  parsedBody := some { plainRequest with TMax := tmax }
  arrivals := arr

/-- A request whose device country is "US". -/
def usRequest : BidRequest :=
  { plainRequest with Device := some { Geo := some { Country := "US" } } }

/-- A DSP blacklisting the US (lowercase entry, matched case-insensitively)
while whitelisting it. -/
def usBlacklistDSP : DSPInventory :=
  { openDSP with CountryBlackList := ["us"], Country := ["US"] }

/-- A DSP whose country whitelist is the lowercase "any" sentinel. -/
def anySentinelDSP : DSPInventory := { openDSP with Country := ["any"] }

/-! # Theorems -/

/-! ## Partner registry -/

theorem dspsByTenantLoop_eq (t : Int) (l : List DSPInventory) :
    ∀ acc, dspsByTenantLoop t l acc =
      acc ++ l.filter fun d => d.TenantID == t && d.Status == "Active" := by
  induction l with
  | nil => intro acc; simp [dspsByTenantLoop]
  | cons d rest ih =>
    intro acc
    by_cases h : (d.TenantID == t && d.Status == "Active") = true
    · simp [dspsByTenantLoop, h, ih, List.filter_cons]
    · simp [dspsByTenantLoop, h, ih, List.filter_cons]

/-- C6: for every tenant id, `GetDSPsByTenant` returns exactly the DSP records
of the snapshot whose `TenantID` equals the argument and whose `Status` is
"Active", in snapshot order, and the empty list when no config is loaded. -/
theorem getDSPsByTenant_filter :
    (∀ (cfg : PartnersConfig) (t : Int),
        GetDSPsByTenant (some cfg) t =
          cfg.DSPInventories.filter fun d => d.TenantID == t && d.Status == "Active")
    ∧ ∀ t : Int, GetDSPsByTenant none t = [] := by
  refine ⟨fun cfg t => ?_, fun t => rfl⟩
  simp [GetDSPsByTenant, dspsByTenantLoop_eq]

/-- C5: `Manager.Load` returns an error exactly when the read or the decode
fails; on any such failure the previous snapshot is still the one `GetConfig`
returns, and the pointer is replaced only after a fully successful read and
decode. -/
theorem load_error_keeps_snapshot :
    ∀ (r : Option String) (dec : String → Option PartnersConfig)
      (st : Option PartnersConfig),
      ((Load r dec st).2.isSome = true ↔ r = none ∨ ∃ d, r = some d ∧ dec d = none)
      ∧ ((Load r dec st).2.isSome = true → GetConfig (Load r dec st).1 = GetConfig st)
      ∧ ((Load r dec st).2 = none →
          ∃ d cfg, r = some d ∧ dec d = some cfg ∧ (Load r dec st).1 = some cfg) := by
  intro r dec st
  match r with
  | none => simp [Load, GetConfig]
  | some d =>
    match hd : dec d with
    | none => simp [Load, hd, GetConfig]
    | some cfg => simp [Load, hd, GetConfig]

theorem load_error_keeps_snapshot_witness :
    GetConfig (Load none (fun _ => none) (some (cfgFixture "Active"))).1 =
      GetConfig (some (cfgFixture "Active")) :=
  (load_error_keeps_snapshot none (fun _ => none) (some (cfgFixture "Active"))).2.1 rfl

/-! ## Shortlister -/

theorem shortlistLoop_eq (req : BidRequest) (N : Int) (cs : List DSPInventory) :
    ∀ acc : List DSPInventory, (acc.length : Int) < N →
      shortlistLoop req N cs acc =
        acc ++ (cs.filter fun d => MatchTargeting req d).take (N - acc.length).toNat := by
  induction cs with
  | nil => intro acc _; simp [shortlistLoop]
  | cons d rest ih =>
    intro acc hlt
    by_cases hm : MatchTargeting req d
    · by_cases hN : N ≤ ((acc ++ [d]).length : Int)
      · have hone : (N - (acc.length : Int)).toNat = 1 := by
          simp only [List.length_append, List.length_cons, List.length_nil] at hN
          omega
        simp [shortlistLoop, hm, hN, List.filter_cons, hone]
        intro hcontra
        exfalso
        simp only [List.length_append, List.length_cons, List.length_nil] at hN
        omega
      · have hlt2 : (((acc ++ [d]).length : ℕ) : Int) < N := by
          simp only [List.length_append, List.length_cons, List.length_nil] at hN ⊢
          omega
        have hrec := ih (acc ++ [d]) hlt2
        have hsucc : (N - (acc.length : Int)).toNat =
            (N - ((acc ++ [d]).length : ℕ)).toNat + 1 := by
          simp only [List.length_append, List.length_cons, List.length_nil]
          push_cast
          omega
        simp [shortlistLoop, hm, hN, hrec, List.filter_cons, hsucc, List.take_succ_cons]
        exact fun h => Or.inl h
    · simp [shortlistLoop, hm, ih acc hlt, List.filter_cons]

/-- C3 counterexample: with limit `N = 0` the loop appends the first accepted
candidate before checking the cap, so the returned list has length `1 > 0`,
refuting the claim for every limit `N`. -/
theorem shortlist_limit_zero_cex :
    ShortlistDSPs plainRequest [openDSP] 0 = [openDSP] ∧
      ¬ ((ShortlistDSPs plainRequest [openDSP] 0).length : Int) ≤ 0 := by
  constructor
  · rfl
  · decide

/-- C3 (amended): for every request, candidate list and limit `N ≥ 1`,
`ShortlistDSPs` returns at most `N` records and is exactly the order-preserving
prefix of the targeting-filtered candidates truncated at the first `N`. -/
theorem shortlist_cap_amended :
    ∀ (req : BidRequest) (cs : List DSPInventory) (N : Int), 1 ≤ N →
      ((ShortlistDSPs req cs N).length : Int) ≤ N ∧
      ShortlistDSPs req cs N = (cs.filter fun d => MatchTargeting req d).take N.toNat := by
  intro req cs N hN
  have h := shortlistLoop_eq req N cs [] (by simpa using hN)
  have h2 : ShortlistDSPs req cs N = (cs.filter fun d => MatchTargeting req d).take N.toNat := by
    simpa [ShortlistDSPs] using h
  refine ⟨?_, h2⟩
  rw [h2]
  have hle := List.length_take_le N.toNat (cs.filter fun d => MatchTargeting req d)
  omega

theorem shortlist_cap_amended_witness :
    ((ShortlistDSPs plainRequest [openDSP, openDSP] 1).length : Int) ≤ 1 ∧
      ShortlistDSPs plainRequest [openDSP, openDSP] 1 =
        ([openDSP, openDSP].filter fun d => MatchTargeting plainRequest d).take (1 : Int).toNat :=
  shortlist_cap_amended plainRequest [openDSP, openDSP] 1 (by decide)

/-! ## Targeting filter -/

/-- C4: when the request's device country is non-empty, a case-insensitive
country-blacklist hit makes `MatchTargeting` false regardless of the
whitelist; and with no blacklist hit, an "ANY" token in the (uppercased)
country whitelist makes the country rule pass for any non-empty country. -/
theorem targeting_country_rules :
    ∀ (req : BidRequest) (dsp : DSPInventory), requestCountry req ≠ "" →
      ((∃ bc ∈ dsp.CountryBlackList, goToUpper bc = requestCountry req) →
        MatchTargeting req dsp = false)
      ∧ ((¬ ∃ bc ∈ dsp.CountryBlackList, goToUpper bc = requestCountry req) →
          "ANY" ∈ dsp.Country.map goToUpper → countryRule req dsp = true) := by
  intro req dsp hne
  have hbe : (requestCountry req == "") = false := by
    simpa using hne
  constructor
  · rintro ⟨bc, hmem, hup⟩
    have hbl : (dsp.CountryBlackList.any fun bc => goToUpper bc == requestCountry req) = true := by
      simp only [List.any_eq_true]
      exact ⟨bc, hmem, by simp [hup]⟩
    have hcr : countryRule req dsp = false := by
      simp [countryRule, hbe, hbl]
    simp [MatchTargeting, hcr]
  · intro hnot hany
    have hbl : (dsp.CountryBlackList.any fun bc => goToUpper bc == requestCountry req) = false := by
      simp only [List.any_eq_false]
      intro bc hmem
      simp only [beq_iff_eq]
      exact fun h => hnot ⟨bc, hmem, h⟩
    obtain ⟨wc, hwc, hup⟩ := List.mem_map.mp hany
    have hnonempty : dsp.Country.isEmpty = false := by
      cases h : dsp.Country with
      | nil => rw [h] at hwc; cases hwc
      | cons a l => rfl
    have hwl : (dsp.Country.any fun wc =>
        goToUpper wc == requestCountry req || goToUpper wc == "ANY") = true := by
      simp only [List.any_eq_true]
      exact ⟨wc, hwc, by simp [hup]⟩
    simp [countryRule, hbe, hbl, hnonempty, hwl]

theorem targeting_country_rules_witness :
    MatchTargeting usRequest usBlacklistDSP = false ∧
      countryRule usRequest anySentinelDSP = true :=
  ⟨(targeting_country_rules usRequest usBlacklistDSP (by decide)).1
      ⟨"us", by decide, by decide⟩,
    (targeting_country_rules usRequest anySentinelDSP (by decide)).2
      (by decide) (by decide)⟩

/-! ## Winner selection: running-maximum facts -/

theorem runMax_nil (z : ℚ) : runMax z [] = z := rfl

theorem runMax_cons (z p : ℚ) (ps : List ℚ) :
    runMax z (p :: ps) = runMax (if z < p then p else z) ps := rfl

theorem runMax_append (z : ℚ) (ps qs : List ℚ) :
    runMax z (ps ++ qs) = runMax (runMax z ps) qs := by
  simp [runMax, List.foldl_append]

theorem le_runMax : ∀ (ps : List ℚ) (z : ℚ), z ≤ runMax z ps := by
  intro ps
  induction ps with
  | nil => intro z; simp [runMax_nil]
  | cons p rest ih =>
    intro z
    rw [runMax_cons]
    rcases lt_or_ge z p with h | h
    · exact le_trans (le_of_lt h) (by simpa [h] using ih p)
    · simpa [not_lt.mpr h] using ih z

theorem mem_le_runMax : ∀ (ps : List ℚ) (z p : ℚ), p ∈ ps → p ≤ runMax z ps := by
  intro ps
  induction ps with
  | nil => intro z p h; cases h
  | cons q rest ih =>
    intro z p hmem
    rw [runMax_cons]
    rcases List.mem_cons.mp hmem with h | h
    · subst h
      rcases lt_or_ge z p with hz | hz
      · simpa [hz] using le_runMax rest p
      · exact le_trans hz (by simpa [not_lt.mpr hz] using le_runMax rest z)
    · exact ih _ p h

theorem runMax_eq_or_mem : ∀ (ps : List ℚ) (z : ℚ),
    runMax z ps = z ∨ runMax z ps ∈ ps := by
  intro ps
  induction ps with
  | nil => intro z; exact Or.inl rfl
  | cons p rest ih =>
    intro z
    rw [runMax_cons]
    rcases lt_or_ge z p with hz | hz
    · rcases ih p with h | h
      · exact Or.inr (by simp [hz, h])
      · exact Or.inr (by simp [hz]; exact Or.inr h)
    · rcases ih z with h | h
      · exact Or.inl (by simpa [not_lt.mpr hz] using h)
      · exact Or.inr (by simp [not_lt.mpr hz]; exact Or.inr h)

theorem runMax_of_all_le (ps : List ℚ) (z : ℚ) (h : ∀ p ∈ ps, p ≤ z) :
    runMax z ps = z := by
  rcases runMax_eq_or_mem ps z with heq | hmem
  · exact heq
  · exact le_antisymm (h _ hmem) (le_runMax ps z)

theorem lt_runMax_of_mem (ps : List ℚ) (z p : ℚ) (hmem : p ∈ ps) (hz : z < p) :
    z < runMax z ps :=
  lt_of_lt_of_le hz (mem_le_runMax ps z p hmem)

/-! ## Winner selection: price-fold facts -/

theorem bidsFold_eq_priceFold (st : Option Arrival × ℚ) (res : Arrival) :
    bidsFold st res = (arrivalPrices res).foldl (priceStep res) st := by
  show bidsFold st res =
    ((res.1.SeatBid.flatMap fun sb => sb.Bid).map fun b => b.Price).foldl
      (priceStep res) st
  rw [List.foldl_map]
  unfold bidsFold
  induction res.1.SeatBid generalizing st with
  | nil => simp
  | cons sb rest ih =>
    simp only [List.flatMap_cons, List.foldl_append, List.foldl_cons, ih]
    rfl

theorem priceFold_snd (res : Arrival) :
    ∀ (ps : List ℚ) (st : Option Arrival × ℚ),
      (ps.foldl (priceStep res) st).2 = runMax st.2 ps := by
  intro ps
  induction ps with
  | nil => intro st; rfl
  | cons p rest ih =>
    intro st
    rw [List.foldl_cons, runMax_cons, ih]
    by_cases h : st.2 < p
    · simp [priceStep, h]
    · simp [priceStep, h]

theorem priceFold_id (res : Arrival) :
    ∀ (ps : List ℚ) (st : Option Arrival × ℚ),
      anyAbove st.2 ps = false → ps.foldl (priceStep res) st = st := by
  intro ps
  induction ps with
  | nil => intro st _; rfl
  | cons p rest ih =>
    intro st h
    simp only [anyAbove, List.any_cons, Bool.or_eq_false_iff, decide_eq_false_iff_not] at h
    rw [List.foldl_cons, priceStep, if_neg h.1]
    exact ih st h.2

theorem priceFold_fst_or (res : Arrival) :
    ∀ (ps : List ℚ) (st : Option Arrival × ℚ),
      (ps.foldl (priceStep res) st).1 = st.1 ∨ (ps.foldl (priceStep res) st).1 = some res := by
  intro ps
  induction ps with
  | nil => intro st; exact Or.inl rfl
  | cons p rest ih =>
    intro st
    rw [List.foldl_cons]
    by_cases h : st.2 < p
    · rcases ih (priceStep res st p) with h2 | h2
      · rw [h2, priceStep, if_pos h]; exact Or.inr rfl
      · exact Or.inr h2
    · rcases ih (priceStep res st p) with h2 | h2
      · rw [h2, priceStep, if_neg h]; exact Or.inl rfl
      · exact Or.inr h2

theorem priceFold_fst_update (res : Arrival) :
    ∀ (ps : List ℚ) (st : Option Arrival × ℚ),
      anyAbove st.2 ps = true → (ps.foldl (priceStep res) st).1 = some res := by
  intro ps
  induction ps with
  | nil => intro st h; cases h
  | cons p rest ih =>
    intro st h
    rw [List.foldl_cons]
    by_cases hp : st.2 < p
    · have hstep : priceStep res st p = (some res, p) := by rw [priceStep, if_pos hp]
      rcases priceFold_fst_or res rest (priceStep res st p) with h2 | h2
      · rw [h2, hstep]
      · exact h2
    · have hstep : priceStep res st p = st := by rw [priceStep, if_neg hp]
      rw [hstep]
      apply ih st
      simp only [anyAbove, List.any_cons, Bool.or_eq_true, decide_eq_true_eq] at h
      rcases h with h | h
      · exact absurd h hp
      · exact h

/-! ## Winner selection: collection-loop characterization -/

theorem anyAbove_iff (z : ℚ) (ps : List ℚ) : anyAbove z ps = true ↔ ∃ p ∈ ps, z < p := by
  simp [anyAbove]

theorem anyAbove_false_iff (z : ℚ) (ps : List ℚ) :
    anyAbove z ps = false ↔ ∀ p ∈ ps, p ≤ z := by
  simp [anyAbove, not_lt]

theorem allPrices_cons (a : Arrival) (l : List Arrival) :
    allPrices (a :: l) = arrivalPrices a ++ allPrices l := by
  simp [allPrices]

theorem bidsFold_snd (st : Option Arrival × ℚ) (a : Arrival) :
    (bidsFold st a).2 = runMax st.2 (arrivalPrices a) := by
  rw [bidsFold_eq_priceFold]
  exact priceFold_snd a _ st

theorem mem_allPrices (a : Arrival) (l : List Arrival) (p : ℚ)
    (ha : a ∈ l) (hp : p ∈ arrivalPrices a) : p ∈ allPrices l :=
  List.mem_flatMap.mpr ⟨a, ha, hp⟩

theorem find?_ext {α : Type} (l : List α) (p q : α → Bool)
    (h : ∀ a ∈ l, p a = q a) : l.find? p = l.find? q := by
  induction l with
  | nil => rfl
  | cons a rest ih =>
    rw [List.find?_cons, List.find?_cons, h a (List.mem_cons_self a rest)]
    cases hqa : q a
    · exact ih fun b hb => h b (List.mem_cons_of_mem a hb)
    · rfl

theorem arrivalsFold_snd : ∀ (l : List Arrival) (st : Option Arrival × ℚ),
    (l.foldl bidsFold st).2 = runMax st.2 (allPrices l) := by
  intro l
  induction l with
  | nil => intro st; rfl
  | cons a rest ih =>
    intro st
    rw [List.foldl_cons, ih, allPrices_cons, runMax_append, bidsFold_snd]

theorem arrivalsFold_id : ∀ (l : List Arrival) (st : Option Arrival × ℚ),
    anyAbove st.2 (allPrices l) = false → l.foldl bidsFold st = st := by
  intro l
  induction l with
  | nil => intro st _; rfl
  | cons a rest ih =>
    intro st h
    rw [allPrices_cons] at h
    have hparts : anyAbove st.2 (arrivalPrices a) = false ∧
        anyAbove st.2 (allPrices rest) = false := by
      constructor <;>
        · rw [anyAbove_false_iff]
          intro p hp
          exact (anyAbove_false_iff _ _).mp h p (by simp [hp])
    have hid : bidsFold st a = st := by
      rw [bidsFold_eq_priceFold]
      exact priceFold_id a _ st hparts.1
    rw [List.foldl_cons, hid]
    exact ih st hparts.2

theorem arrivalsFold_update : ∀ (l : List Arrival) (st : Option Arrival × ℚ),
    anyAbove st.2 (allPrices l) = true →
    (l.foldl bidsFold st).1 =
      l.find? fun a =>
        (arrivalPrices a).any fun q => decide (q = runMax st.2 (allPrices l)) := by
  intro l
  induction l with
  | nil => intro st h; cases h
  | cons a rest ih =>
    intro st h
    rw [List.foldl_cons]
    have hsnd : (bidsFold st a).2 = runMax st.2 (arrivalPrices a) := bidsFold_snd st a
    have hMeq : runMax st.2 (allPrices (a :: rest)) =
        runMax (bidsFold st a).2 (allPrices rest) := by
      rw [allPrices_cons, runMax_append, hsnd]
    by_cases hA : anyAbove st.2 (arrivalPrices a) = true
    · have hfst : (bidsFold st a).1 = some a := by
        rw [bidsFold_eq_priceFold]
        exact priceFold_fst_update a _ st hA
      have hm1 : st.2 < (bidsFold st a).2 := by
        obtain ⟨p, hp, hlt⟩ := (anyAbove_iff _ _).mp hA
        rw [hsnd]
        exact lt_runMax_of_mem _ _ _ hp hlt
      by_cases hR : anyAbove (bidsFold st a).2 (allPrices rest) = true
      · have hM2 : (bidsFold st a).2 < runMax (bidsFold st a).2 (allPrices rest) := by
          obtain ⟨p, hp, hlt⟩ := (anyAbove_iff _ _).mp hR
          exact lt_runMax_of_mem _ _ _ hp hlt
        have hhead : ((arrivalPrices a).any fun q =>
            decide (q = runMax st.2 (allPrices (a :: rest)))) = false := by
          simp only [List.any_eq_false, decide_eq_true_eq]
          intro q hq
          have hqle : q ≤ (bidsFold st a).2 := by
            rw [hsnd]
            exact mem_le_runMax _ _ _ hq
          rw [hMeq]
          exact ne_of_lt (lt_of_le_of_lt hqle hM2)
        rw [List.find?_cons_of_neg
            (p := fun x =>
              (arrivalPrices x).any fun q => decide (q = runMax st.2 (allPrices (a :: rest))))
            _ (by simp only [hhead]; exact Bool.false_ne_true),
          ih (bidsFold st a) hR, hMeq]
      · have hRf : anyAbove (bidsFold st a).2 (allPrices rest) = false := by
          simpa using hR
        have hid := arrivalsFold_id rest (bidsFold st a) hRf
        rw [hid, hfst]
        have hM : runMax st.2 (allPrices (a :: rest)) = (bidsFold st a).2 := by
          rw [hMeq]
          exact runMax_of_all_le _ _ ((anyAbove_false_iff _ _).mp hRf)
        have hmem : (bidsFold st a).2 ∈ arrivalPrices a := by
          rw [hsnd] at hm1 ⊢
          rcases runMax_eq_or_mem (arrivalPrices a) st.2 with he | hm
          · rw [he] at hm1
            exact absurd hm1 (lt_irrefl _)
          · exact hm
        have hhead : ((arrivalPrices a).any fun q =>
            decide (q = runMax st.2 (allPrices (a :: rest)))) = true := by
          simp only [List.any_eq_true, decide_eq_true_eq]
          exact ⟨(bidsFold st a).2, hmem, hM.symm⟩
        rw [List.find?_cons_of_pos
            (p := fun x =>
              (arrivalPrices x).any fun q => decide (q = runMax st.2 (allPrices (a :: rest))))
            _ hhead]
    · have hAf : anyAbove st.2 (arrivalPrices a) = false := by simpa using hA
      have hid : bidsFold st a = st := by
        rw [bidsFold_eq_priceFold]
        exact priceFold_id a _ st hAf
      have hrest : anyAbove st.2 (allPrices rest) = true := by
        rw [allPrices_cons] at h
        rcases (anyAbove_iff _ _).mp h with ⟨p, hp, hlt⟩
        rcases List.mem_append.mp hp with hp1 | hp2
        · exact absurd ((anyAbove_false_iff _ _).mp hAf p hp1) (not_le.mpr hlt)
        · exact (anyAbove_iff _ _).mpr ⟨p, hp2, hlt⟩
      have hM : runMax st.2 (allPrices (a :: rest)) = runMax st.2 (allPrices rest) := by
        rw [allPrices_cons, runMax_append,
          runMax_of_all_le _ _ ((anyAbove_false_iff _ _).mp hAf)]
      have hM2 : st.2 < runMax st.2 (allPrices rest) := by
        obtain ⟨p, hp, hlt⟩ := (anyAbove_iff _ _).mp hrest
        exact lt_runMax_of_mem _ _ _ hp hlt
      have hhead : ((arrivalPrices a).any fun q =>
          decide (q = runMax st.2 (allPrices (a :: rest)))) = false := by
        simp only [List.any_eq_false, decide_eq_true_eq]
        intro q hq
        have hqle : q ≤ st.2 := (anyAbove_false_iff _ _).mp hAf q hq
        rw [hM]
        exact ne_of_lt (lt_of_le_of_lt hqle hM2)
      rw [hid, List.find?_cons_of_neg
          (p := fun x =>
            (arrivalPrices x).any fun q => decide (q = runMax st.2 (allPrices (a :: rest))))
          _ (by simp only [hhead]; exact Bool.false_ne_true),
        ih st hrest, hM]

theorem selectBest_fst_none (l : List Arrival) (h : ∀ p ∈ allPrices l, p ≤ 0) :
    (selectBest l).1 = none := by
  have hfalse : anyAbove 0 (allPrices l) = false := (anyAbove_false_iff _ _).mpr h
  have h2 := arrivalsFold_id l (none, 0) hfalse
  simp [selectBest, h2]

/-! ## C1: winner selection -/

/-- C1 counterexample: a single received response whose only bid has price 0.
That bid carries the strictly greatest price across all received responses,
so the claimed winner is that pair, yet the collection loop (whose running
maximum starts at 0 and is only replaced by a strictly greater price) selects
no winner. -/
theorem winner_zero_price_cex :
    (selectBest [(oneBidResponse 0, openDSP)]).1 = none ∧
      specWinner [(oneBidResponse 0, openDSP)] = some (oneBidResponse 0, openDSP) := by
  constructor
  · rfl
  · rfl

/-- C1 (amended): provided at least one received bid has strictly positive
price, the collection loop's winner is exactly the pair containing the bid
with the greatest price across all received responses, ties broken by arrival
order (the first-observed maximal response wins and a later equal-price bid
never replaces it); when every received price is non-positive no winner is
selected. -/
theorem winner_is_first_max_amended :
    ∀ l : List Arrival, (∃ p ∈ allPrices l, 0 < p) →
      (selectBest l).1 = specWinner l := by
  intro l hpos
  have hany : anyAbove 0 (allPrices l) = true := (anyAbove_iff _ _).mpr hpos
  have hupd := arrivalsFold_update l (none, 0) hany
  have hMpos : (0 : ℚ) < runMax 0 (allPrices l) := by
    obtain ⟨p, hp, h0⟩ := hpos
    exact lt_runMax_of_mem _ _ _ hp h0
  have hMmem : runMax 0 (allPrices l) ∈ allPrices l := by
    rcases runMax_eq_or_mem (allPrices l) 0 with h | h
    · rw [h] at hMpos
      exact absurd hMpos (lt_irrefl 0)
    · exact h
  have hMtop : ∀ q ∈ allPrices l, q ≤ runMax 0 (allPrices l) := fun q hq =>
    mem_le_runMax _ _ _ hq
  rw [selectBest, hupd, specWinner]
  apply find?_ext
  intro a ha
  have hiff : ((arrivalPrices a).any fun q => decide (q = runMax 0 (allPrices l))) = true ↔
      ((arrivalPrices a).any fun p => (allPrices l).all fun q => decide (q ≤ p)) = true := by
    simp only [List.any_eq_true, List.all_eq_true, decide_eq_true_eq]
    constructor
    · rintro ⟨q, hq, rfl⟩
      exact ⟨_, hq, hMtop⟩
    · rintro ⟨p, hp, htop⟩
      have hple : p ≤ runMax 0 (allPrices l) := hMtop p (mem_allPrices a l p ha hp)
      have hMle : runMax 0 (allPrices l) ≤ p := htop _ hMmem
      exact ⟨p, hp, le_antisymm hple hMle⟩
  cases h1 : ((arrivalPrices a).any fun q => decide (q = runMax 0 (allPrices l))) with
  | true => exact (hiff.mp h1).symm
  | false =>
    cases h2 : ((arrivalPrices a).any fun p => (allPrices l).all fun q => decide (q ≤ p)) with
    | true => exact absurd (hiff.mpr h2) (by simp [h1])
    | false => rfl

theorem winner_is_first_max_amended_witness :
    (selectBest [(oneBidResponse 1, openDSP)]).1 = specWinner [(oneBidResponse 1, openDSP)] :=
  winner_is_first_max_amended [(oneBidResponse 1, openDSP)] ⟨1, by decide, by decide⟩

/-! ## Orchestrator contracts -/

theorem sspFindLoop_eq_find? (code : String) :
    ∀ l : List SSPInventory,
      sspFindLoop code l = l.find? fun s => s.InventoryCode == code := by
  intro l
  induction l with
  | nil => rfl
  | cons s rest ih =>
    rw [List.find?_cons]
    cases h : (s.InventoryCode == code)
    · simp [sspFindLoop, h, ih]
    · simp [sspFindLoop, h]

/-- C2: when the pipeline reaches the parsed request and its TMax is at most
120 ms, `Handle` increments the auction counter with `rejected_tmax`,
increments the SSP response counter with status `error`, answers HTTP 204,
and fans out to no DSP. -/
theorem tmax_reject_contract :
    ∀ (inp : HandleInput) (cfg : PartnersConfig) (ssp : SSPInventory) (req : BidRequest),
      inp.cfg = some cfg → cfg.AdServing = true → inp.accountCode ≠ "" →
      GetSSPByInventoryCode (some cfg) inp.accountCode = some ssp →
      inp.parsedBody = some req → req.TMax ≤ 120 →
      Handle inp =
        { status := HStatus.noContent204
          auctionCounts := ["rejected_tmax"]
          sspRequestCounts := [(ssp.PrometheusIdentifier, ssp.TenantIdentifier, ssp.SSPIdentifier)]
          sspResponseCounts :=
            [(ssp.PrometheusIdentifier, ssp.TenantIdentifier, ssp.SSPIdentifier, "error")]
          dspCalls := []
          winner := none } := by
  rintro ⟨icfg, code, body, arr⟩ cfg ssp req hcfg hAd hcode hssp hbody htmax
  simp only at hcfg hcode hssp hbody
  subst hcfg
  subst hbody
  have hcode2 : (code == "") = false := by simpa using hcode
  simp [Handle, hAd, hcode2, hssp, htmax]

theorem tmax_reject_contract_witness :
    Handle (inputFixture "Active" 100 []) =
      { status := HStatus.noContent204
        auctionCounts := ["rejected_tmax"]
        sspRequestCounts := [("ssp-prom", "t1", "ssp-1")]
        sspResponseCounts := [("ssp-prom", "t1", "ssp-1", "error")]
        dspCalls := []
        winner := none } :=
  tmax_reject_contract (inputFixture "Active" 100 []) (cfgFixture "Active")
    (sspFixture "Active") { plainRequest with TMax := 100 }
    rfl rfl (by decide) (by decide) rfl (by decide)

/-- C9: when every bid price received before the deadline is non-positive,
the orchestrator selects no winner — the running maximum starts at 0 and is
only replaced by a strictly greater price — and `Handle` answers HTTP 204
with the SSP response counter incremented as `no_bid`, even when the received
responses contain bids. -/
theorem nonpositive_prices_no_winner :
    ∀ (inp : HandleInput) (cfg : PartnersConfig) (ssp : SSPInventory) (req : BidRequest),
      inp.cfg = some cfg → cfg.AdServing = true → inp.accountCode ≠ "" →
      GetSSPByInventoryCode (some cfg) inp.accountCode = some ssp →
      inp.parsedBody = some req → 120 < req.TMax →
      (∀ p ∈ allPrices inp.arrivals, p ≤ 0) →
      (Handle inp).winner = none ∧ (Handle inp).status = HStatus.noContent204 ∧
        (Handle inp).sspResponseCounts =
          [(ssp.PrometheusIdentifier, ssp.TenantIdentifier, ssp.SSPIdentifier, "no_bid")] := by
  rintro ⟨icfg, code, body, arr⟩ cfg ssp req hcfg hAd hcode hssp hbody htmax hprices
  simp only at hcfg hcode hssp hbody hprices
  subst hcfg
  subst hbody
  have hcode2 : (code == "") = false := by simpa using hcode
  have htm : ¬ req.TMax ≤ 120 := not_le.mpr htmax
  have hnone := selectBest_fst_none arr hprices
  by_cases hsel : (ShortlistDSPs req (GetDSPsByTenant (some cfg) ssp.TenantID) 5).isEmpty
  · simp [Handle, hAd, hcode2, hssp, htm, hsel]
  · simp [Handle, hAd, hcode2, hssp, htm, hsel, hnone]

theorem nonpositive_prices_no_winner_witness :
    (Handle (inputFixture "Active" 300 [(oneBidResponse 0, openDSP)])).winner = none ∧
      (Handle (inputFixture "Active" 300 [(oneBidResponse 0, openDSP)])).status =
        HStatus.noContent204 ∧
      (Handle (inputFixture "Active" 300 [(oneBidResponse 0, openDSP)])).sspResponseCounts =
        [("ssp-prom", "t1", "ssp-1", "no_bid")] :=
  nonpositive_prices_no_winner (inputFixture "Active" 300 [(oneBidResponse 0, openDSP)])
    (cfgFixture "Active") (sspFixture "Active") { plainRequest with TMax := 300 }
    rfl rfl (by decide) (by decide) rfl (by decide) (by decide)

/-- C10: `GetSSPByInventoryCode` is exactly a first-match scan on the
inventory code and never consults the record's `Status`; consequently a
request carrying the inventory code of a non-"Active" SSP record still
authenticates and the auction proceeds (the handler does not answer 401). -/
theorem inactive_ssp_still_served :
    (∀ (cfg : PartnersConfig) (code : String),
        GetSSPByInventoryCode (some cfg) code =
          cfg.SSPInventories.find? fun s => s.InventoryCode == code)
    ∧ ∀ (inp : HandleInput) (cfg : PartnersConfig) (ssp : SSPInventory),
        inp.cfg = some cfg → cfg.AdServing = true → inp.accountCode ≠ "" →
        (cfg.SSPInventories.find? fun s => s.InventoryCode == inp.accountCode) = some ssp →
        ssp.Status ≠ "Active" →
        GetSSPByInventoryCode (some cfg) inp.accountCode = some ssp ∧
          (Handle inp).status ≠ HStatus.unauthorized401 := by
  constructor
  · intro cfg code
    exact sspFindLoop_eq_find? code cfg.SSPInventories
  · rintro ⟨icfg, code, body, arr⟩ cfg ssp hcfg hAd hcode hfind _
    simp only at hcfg hcode hfind
    subst hcfg
    have hssp : GetSSPByInventoryCode (some cfg) code = some ssp := by
      show sspFindLoop code cfg.SSPInventories = some ssp
      rw [sspFindLoop_eq_find?]
      exact hfind
    refine ⟨hssp, ?_⟩
    have hcode2 : (code == "") = false := by simpa using hcode
    rcases body with _ | req
    · simp [Handle, hAd, hcode2, hssp]
    · by_cases htm : req.TMax ≤ 120
      · simp [Handle, hAd, hcode2, hssp, htm]
      · by_cases hsel : (ShortlistDSPs req (GetDSPsByTenant (some cfg) ssp.TenantID) 5).isEmpty
        · simp [Handle, hAd, hcode2, hssp, htm, hsel]
        · rcases hbest : (selectBest arr).1 with _ | best
          · simp [Handle, hAd, hcode2, hssp, htm, hsel, hbest]
          · simp [Handle, hAd, hcode2, hssp, htm, hsel, hbest]

theorem inactive_ssp_still_served_witness :
    GetSSPByInventoryCode (some (cfgFixture "Paused")) "acct-1" = some (sspFixture "Paused") ∧
      (Handle (inputFixture "Paused" 300 [])).status ≠ HStatus.unauthorized401 :=
  inactive_ssp_still_served.2 (inputFixture "Paused" 300 []) (cfgFixture "Paused")
    (sspFixture "Paused") rfl rfl (by decide) (by decide) (by decide)

/-! ## BidLogger.Close (C7) -/

/-- C7 refutation: `Close` is not idempotent.  A second `Close` on a logger
that a first `Close` already closed runs `close(l.logChan)` on a closed
channel and panics ("close of closed channel"); the unused `sync.Once` field
of the `BidLogger` struct shows the intended idempotence the code fails to
implement. -/
theorem loggerClose_second_call_panics :
    ∀ l l2 : BidLoggerM, CloseLogger l = Except.ok l2 →
      CloseLogger l2 = Except.error GoPanic.closeOfClosedChannel := by
  intro l l2 h
  by_cases hc : l.logChan.closed
  · simp [CloseLogger, chanClose, hc] at h
  · simp [CloseLogger, chanClose, hc] at h
    rw [← h]
    simp [CloseLogger, chanClose]

theorem loggerClose_second_call_panics_witness :
    CloseLogger closedLogger = Except.error GoPanic.closeOfClosedChannel :=
  loggerClose_second_call_panics freshLogger closedLogger rfl

/-! ## Wire-format round trips (C8) -/

theorem encodeVarint_rt :
    ∀ (n : Nat) (rest : List Byte), decodeVarint (encodeVarint n ++ rest) = some (n, rest) := by
  intro n
  induction n using Nat.strong_induction_on with
  | _ n ih =>
    intro rest
    rw [encodeVarint]
    by_cases h : n < 128
    · simp [h, decodeVarint]
    · rw [dif_neg h]
      simp only [List.cons_append, decodeVarint]
      have hge : ¬ ((⟨128 + n % 128, by omega⟩ : Byte).val < 128) := by
        simp
      rw [if_neg hge, List.append_eq, ih (n / 128) (Nat.div_lt_self (by omega) (by omega)) rest]
      simp
      omega

theorem encodeBytesD_rt (bs rest : List Byte) :
    decodeBytesD (encodeBytesD bs ++ rest) = some (bs, rest) := by
  unfold encodeBytesD decodeBytesD
  rw [List.append_assoc, encodeVarint_rt]
  simp [List.take_left, List.drop_left]

theorem encodeIntD_rt (i : Int) (rest : List Byte) :
    decodeIntD (encodeIntD i ++ rest) = some (i, rest) := by
  unfold encodeIntD decodeIntD
  by_cases h : i < 0
  · simp only [if_pos h, List.cons_append, encodeVarint_rt]
    simp
    simp [abs_of_neg h]
  · simp only [if_neg h, List.cons_append, encodeVarint_rt]
    simp
    exact not_lt.mp h

theorem encodeRatD_rt (q : ℚ) (rest : List Byte) :
    decodeRatD (encodeRatD q ++ rest) = some (q, rest) := by
  unfold encodeRatD decodeRatD
  rw [List.append_assoc, encodeIntD_rt]
  simp [encodeVarint_rt, Rat.mkRat_self]

theorem encodeSourceD_rt (s : Option EventSource) (rest : List Byte) :
    decodeSourceD (encodeSourceD s ++ rest) = some (s, rest) := by
  match s with
  | none => simp [encodeSourceD, decodeSourceD]
  | some (EventSource.app a) =>
    simp only [encodeSourceD, List.cons_append, decodeSourceD]
    norm_num
    simp only [List.append_assoc, encodeBytesD_rt]
  | some (EventSource.web w) =>
    simp only [encodeSourceD, List.cons_append, decodeSourceD]
    norm_num
    simp only [List.append_assoc, encodeBytesD_rt]

theorem encodeIntD_rt_nil (i : Int) : decodeIntD (encodeIntD i) = some (i, []) := by
  have h := encodeIntD_rt i []
  simpa using h

theorem marshalEvent_rt (e : AuctionEvent) : unmarshalEvent (marshalEvent e) = some e := by
  unfold marshalEvent unmarshalEvent
  simp only [List.append_assoc, encodeVarint_rt, encodeBytesD_rt, encodeRatD_rt,
    encodeSourceD_rt, encodeIntD_rt_nil, List.isEmpty_nil, if_true]

theorem hexVal_hexDigitChar : ∀ d : Fin 16, hexVal (hexDigitChar d) = some d := by decide

theorem hexDigitChar_ne_newline : ∀ d : Fin 16, hexDigitChar d ≠ '\n' := by decide

theorem hexDecode_hexEncode : ∀ bs : List Byte,
    hexDecodeChars (hexEncodeChars bs) = some bs := by
  intro bs
  induction bs with
  | nil => rfl
  | cons b rest ih =>
    show hexDecodeChars (hexEncodeByte b ++ hexEncodeChars rest) = _
    simp only [hexEncodeByte, List.cons_append, List.nil_append, List.append_eq,
      hexDecodeChars, hexVal_hexDigitChar, ih, Option.bind_eq_bind, Option.some_bind]
    have hb : (⟨b.val / 16 * 16 + b.val % 16, by omega⟩ : Byte) = b := by
      apply Fin.ext
      simp
      omega
    rw [hb]

theorem mem_hexEncode : ∀ (bs : List Byte) (c : Char), c ∈ hexEncodeChars bs →
    ∃ d : Fin 16, c = hexDigitChar d := by
  intro bs
  induction bs with
  | nil => intro c hc; cases hc
  | cons b rest ih =>
    intro c hc
    have hc2 : c ∈ hexEncodeByte b ++ hexEncodeChars rest := hc
    rcases List.mem_append.mp hc2 with h | h
    · simp only [hexEncodeByte, List.mem_cons, List.not_mem_nil, or_false] at h
      rcases h with h | h
      · exact ⟨_, h⟩
      · exact ⟨_, h⟩
    · exact ih c h

theorem hexEncode_no_newline (bs : List Byte) :
    (hexEncodeChars bs).contains '\n' = false := by
  rw [List.contains_eq_any_beq, List.any_eq_false]
  intro c hc
  obtain ⟨d, rfl⟩ := mem_hexEncode bs c hc
  simp only [beq_iff_eq]
  exact fun h => hexDigitChar_ne_newline d h.symm

/-- C8: for every event accepted by the logger (stamped by `Log` with the
logger's hostname and the current millisecond timestamp), the consumer writes
exactly one line — the hex encoding of the event's binary serialization
followed by a newline, with no newline inside the hex part — and decoding the
hex of that line and deserializing recovers an event structurally equal to
the stamped event. -/
theorem hex_line_round_trip :
    ∀ (hn : List Byte) (now : Int) (e : AuctionEvent),
      writeEventLine (stampEvent hn now e) =
        hexEncodeChars (marshalEvent (stampEvent hn now e)) ++ ['\n'] ∧
      (hexEncodeChars (marshalEvent (stampEvent hn now e))).contains '\n' = false ∧
      hexDecodeChars (hexEncodeChars (marshalEvent (stampEvent hn now e))) =
        some (marshalEvent (stampEvent hn now e)) ∧
      unmarshalEvent (marshalEvent (stampEvent hn now e)) = some (stampEvent hn now e) :=
  fun _ _ _ =>
    ⟨rfl, hexEncode_no_newline _, hexDecode_hexEncode _, marshalEvent_rt _⟩
